import Mathlib

/-!
Shallow embedding of `src/svg_to_obj.py` (SVG outline → extruded OBJ mesh).
Python floats are modelled as exact rationals (`ℚ`); every concrete value used
by the claims is integer-valued, where float arithmetic is exact as well.
-/

namespace SvgToObj

/-- Model of `approximate_bezier(p0, p1, p2, p3, segments)`
(src/svg_to_obj.py lines 10-19): sample the cubic Bezier at
`t = i / segments` for `i = 0 .. segments` and collect the points in order. -/
def approximate_bezier (p0 p1 p2 p3 : ℚ × ℚ) (segments : ℕ) : List (ℚ × ℚ) :=
  (List.range (segments + 1)).map (fun (i : ℕ) =>
    let t : ℚ := (i : ℚ) / (segments : ℚ)
    ((1 - t) ^ 3 * p0.1 + 3 * (1 - t) ^ 2 * t * p1.1
        + 3 * (1 - t) * t ^ 2 * p2.1 + t ^ 3 * p3.1,
     (1 - t) ^ 3 * p0.2 + 3 * (1 - t) ^ 2 * t * p1.2
        + 3 * (1 - t) * t ^ 2 * p2.2 + t ^ 3 * p3.2))

/-! Tokenizer: model of
`re.findall(r'[MLHVZCmlhvzc]|[-+]?[0-9]*\.?[0-9]+(?:[eE][-+]?[0-9]+)?', path_d)`
(line 28).  `findall` scans left to right; at each position it emits the
command letter standing there, else the greedy numeric match starting there,
else it skips one character.  Numeric tokens are converted to their exact
rational value (Python later applies `float` to the token text). -/

/-- The command-letter character class `[MLHVZCmlhvzc]`. -/
def isCmdChar (ch : Char) : Bool :=
  ['M', 'L', 'H', 'V', 'Z', 'C', 'm', 'l', 'h', 'v', 'z', 'c'].contains ch

/-- Value of a digit string (most significant first). -/
def digitsToNat (ds : List Char) : ℕ :=
  ds.foldl (fun a c => 10 * a + (c.toNat - 48)) 0

/-- Ten to an integer power, as a rational. -/
def pow10 (e : ℤ) : ℚ :=
  if 0 ≤ e then ((10 : ℚ)) ^ e.toNat else 1 / ((10 : ℚ)) ^ (-e).toNat

/-- Greedy match of the mantissa `[0-9]*\.?[0-9]+` at the head of `l`:
either digits, or digits `.` digits (at least one digit after the dot,
otherwise the dot is not consumed), or `.` digits. Returns the value and
the unconsumed rest. -/
def matchMantissa (l : List Char) : Option (ℚ × List Char) :=
  let d1 := l.takeWhile Char.isDigit
  let l2 := l.dropWhile Char.isDigit
  match l2 with
  | c :: l3 =>
    if c = '.' then
      let d2 := l3.takeWhile Char.isDigit
      let l4 := l3.dropWhile Char.isDigit
      if d2.isEmpty then
        if d1.isEmpty then none else some ((digitsToNat d1 : ℚ), l2)
      else
        some ((digitsToNat d1 : ℚ) + (digitsToNat d2 : ℚ) / (10 : ℚ) ^ d2.length, l4)
    else
      if d1.isEmpty then none else some ((digitsToNat d1 : ℚ), l2)
  | [] => if d1.isEmpty then none else some ((digitsToNat d1 : ℚ), l2)

/-- Match of the optional sign `[-+]?` at the head of `l`: the sign value
and the unconsumed rest. -/
def matchSign (l : List Char) : ℤ × List Char :=
  match l with
  | c :: r => if c = '-' then (-1, r) else if c = '+' then (1, r) else (1, l)
  | [] => (1, l)

/-- Greedy match of the optional exponent `(?:[eE][-+]?[0-9]+)?` at the head
of `l`: returns the exponent (0 when absent, consuming nothing) and the
unconsumed rest. -/
def matchExp (l : List Char) : ℤ × List Char :=
  match l with
  | c :: r =>
    if c = 'e' ∨ c = 'E' then
      let ds := (matchSign r).2.takeWhile Char.isDigit
      let r2 := (matchSign r).2.dropWhile Char.isDigit
      if ds.isEmpty then (0, l) else ((matchSign r).1 * (digitsToNat ds : ℤ), r2)
    else (0, l)
  | [] => (0, l)

/-- Greedy match of the full numeric alternative
`[-+]?[0-9]*\.?[0-9]+(?:[eE][-+]?[0-9]+)?` at the head of `l`. -/
def matchNum (l : List Char) : Option (ℚ × List Char) :=
  match matchMantissa (matchSign l).2 with
  | none => none
  | some (m, l2) =>
    some (((matchSign l).1 : ℚ) * m * pow10 (matchExp l2).1, (matchExp l2).2)

/-- A token of the path mini-language: a command letter or a numeric literal
(carried as its exact value). -/
inductive Token where
  | cmd : Char → Token
  | num : ℚ → Token
deriving DecidableEq

/-- Fuel-driven scan implementing `re.findall` semantics; each step consumes
at least one character, so fuel `= l.length` suffices (see `tokenize`). -/
def tokenizeF : ℕ → List Char → List Token
  | 0, _ => []
  | _ + 1, [] => []
  | fuel + 1, ch :: rest =>
    if isCmdChar ch then Token.cmd ch :: tokenizeF fuel rest
    else
      match matchNum (ch :: rest) with
      | some (q, rest2) => Token.num q :: tokenizeF fuel rest2
      | none => tokenizeF fuel rest

/-- Tokenization of a path string (line 28 of the source). -/
def tokenize (l : List Char) : List Token :=
  tokenizeF l.length l

/-- Parser cursor state of `parse_svg_path_robust`: accumulated points,
current point `(cx, cy)` and subpath start `(sx, sy)` (lines 23-25). -/
structure PState where
  points : List (ℚ × ℚ)
  cx : ℚ
  cy : ℚ
  sx : ℚ
  sy : ℚ
deriving DecidableEq

/-- One iteration of the token-consuming loop of `parse_svg_path_robust`
(src/svg_to_obj.py lines 30-123), parametrised by the continuation `recur`
that processes the remaining tokens.  `none` models the Python loop raising
(`ValueError` from `float` on a command letter standing in an operand
position, or `IndexError` when the tokens run out); any token that matches
no command branch is skipped, exactly as in the `elif` chain. -/
def runStep (recur : List Token → PState → Option (List (ℚ × ℚ))) :
    List Token → PState → Option (List (ℚ × ℚ))
  | [], st => some st.points
  | Token.num _ :: rest, st => recur rest st
  | Token.cmd ch :: rest, st =>
    if ch = 'M' ∨ ch = 'm' then
      match rest with
      | Token.num x :: Token.num y :: rest2 =>
        let nx := if ch = 'M' then x else st.cx + x
        let ny := if ch = 'M' then y else st.cy + y
        recur rest2 ⟨st.points ++ [(nx, ny)], nx, ny, nx, ny⟩
      | _ => none
    else if ch = 'L' ∨ ch = 'l' then
      match rest with
      | Token.num x :: Token.num y :: rest2 =>
        let nx := if ch = 'L' then x else st.cx + x
        let ny := if ch = 'L' then y else st.cy + y
        recur rest2 ⟨st.points ++ [(nx, ny)], nx, ny, st.sx, st.sy⟩
      | _ => none
    else if ch = 'H' ∨ ch = 'h' then
      match rest with
      | Token.num x :: rest2 =>
        let nx := if ch = 'H' then x else st.cx + x
        recur rest2 ⟨st.points ++ [(nx, st.cy)], nx, st.cy, st.sx, st.sy⟩
      | _ => none
    else if ch = 'V' ∨ ch = 'v' then
      match rest with
      | Token.num y :: rest2 =>
        let ny := if ch = 'V' then y else st.cy + y
        recur rest2 ⟨st.points ++ [(st.cx, ny)], st.cx, ny, st.sx, st.sy⟩
      | _ => none
    else if ch = 'C' ∨ ch = 'c' then
      match rest with
      | Token.num x1 :: Token.num y1 :: Token.num x2 :: Token.num y2 ::
          Token.num x :: Token.num y :: rest2 =>
        let ax1 := if ch = 'C' then x1 else st.cx + x1
        let ay1 := if ch = 'C' then y1 else st.cy + y1
        let ax2 := if ch = 'C' then x2 else st.cx + x2
        let ay2 := if ch = 'C' then y2 else st.cy + y2
        let ax := if ch = 'C' then x else st.cx + x
        let ay := if ch = 'C' then y else st.cy + y
        let curve := approximate_bezier (st.cx, st.cy) (ax1, ay1) (ax2, ay2) (ax, ay) 5
        recur rest2 ⟨st.points ++ curve.tail, ax, ay, st.sx, st.sy⟩
      | _ => none
    else if ch = 'Z' ∨ ch = 'z' then
      let pts := if (st.cx, st.cy) ≠ (st.sx, st.sy)
        then st.points ++ [(st.sx, st.sy)] else st.points
      recur rest ⟨pts, st.sx, st.sy, st.sx, st.sy⟩
    else
      recur rest st

/-- Fuel-driven iteration of the loop body; every iteration consumes at least
one token, so fuel `ts.length + 1` always suffices (see `runTokensF_irrel`
and `runStep_classify` below). -/
def runTokensF : ℕ → List Token → PState → Option (List (ℚ × ℚ))
  | 0, _, _ => none
  | fuel + 1, ts, st => runStep (runTokensF fuel) ts st

/-- The token-consuming loop, with fuel that provably never runs out. -/
def runTokens (ts : List Token) (st : PState) : Option (List (ℚ × ℚ)) :=
  runTokensF (ts.length + 1) ts st

/-- Model of `parse_svg_path_robust(path_d)` (lines 21-124): tokenize, then
run the command loop from the all-zero state; `none` models an uncaught
exception, `some pts` the returned point list. -/
def parse_svg_path_robust (s : List Char) : Option (List (ℚ × ℚ)) :=
  runTokens (tokenize s) ⟨[], 0, 0, 0, 0⟩

/-- Model of `triangulate_polygon_earclip(points)` (lines 126-137): fan
triangulation `[0, i, i+1]` for `i = 1 .. len(points) - 2`; empty for fewer
than 3 points. -/
def triangulate_polygon_earclip (points : List (ℚ × ℚ)) : List (ℕ × ℕ × ℕ) :=
  if points.length < 3 then []
  else (List.range' 1 (points.length - 2)).map (fun i => (0, i, i + 1))

/-- Model of the per-path mesh-building body of `svg_to_obj`
(src/svg_to_obj.py lines 177-228): skip the path when the parsed polyline has
fewer than 3 points, else scale and y-flip, append front and back vertex
blocks at `z = ±depth/2`, then append front-cap, back-cap (last two indices
swapped) and side-wall faces, all 1-based as in the OBJ output. -/
def process_points (vertices : List (ℚ × ℚ × ℚ)) (faces : List (ℕ × ℕ × ℕ))
    (points : List (ℚ × ℚ)) (scale depth : ℚ) :
    List (ℚ × ℚ × ℚ) × List (ℕ × ℕ × ℕ) :=
  if points.length < 3 then (vertices, faces)
  else
    let scaled_points := points.map (fun p => (p.1 * scale, -p.2 * scale))
    let front_start := vertices.length
    let vertices1 := vertices ++ scaled_points.map (fun p => (p.1, p.2, depth / 2))
    let back_start := vertices1.length
    let vertices2 := vertices1 ++ scaled_points.map (fun p => (p.1, p.2, -(depth / 2)))
    let front_triangles := triangulate_polygon_earclip scaled_points
    let faces1 := faces ++ front_triangles.map (fun t =>
      (front_start + t.1 + 1, front_start + t.2.1 + 1, front_start + t.2.2 + 1))
    let faces2 := faces1 ++ front_triangles.map (fun t =>
      (back_start + t.1 + 1, back_start + t.2.2 + 1, back_start + t.2.1 + 1))
    let n := scaled_points.length
    let faces3 := faces2 ++ (List.range n).flatMap (fun i =>
      let next_i := (i + 1) % n
      [(front_start + i + 1, back_start + i + 1, back_start + next_i + 1),
       (front_start + i + 1, back_start + next_i + 1, front_start + next_i + 1)])
    (vertices2, faces3)

/-- Model of the path loop of `svg_to_obj` (lines 169-228): each path string
is parsed and its mesh contribution appended; a parse exception aborts the
whole run (`none`). -/
def svg_to_obj_core (paths : List (List Char)) (scale depth : ℚ)
    (vertices : List (ℚ × ℚ × ℚ)) (faces : List (ℕ × ℕ × ℕ)) :
    Option (List (ℚ × ℚ × ℚ) × List (ℕ × ℕ × ℕ)) :=
  match paths with
  | [] => some (vertices, faces)
  | d :: rest =>
    match parse_svg_path_robust d with
    | none => none
    | some pts =>
      let vf := process_points vertices faces pts scale depth
      svg_to_obj_core rest scale depth vf.1 vf.2

/-! Spec-side definitions: the Bezier formula as the specification states it,
and the operand-count bookkeeping used to characterise parse failures. -/

/-- The cubic Bezier formula from the specification (§4.1 step 9):
`P(t) = (1-t)^3 P0 + 3 (1-t)^2 t P1 + 3 (1-t) t^2 P2 + t^3 P3`,
applied independently to x and y. -/
def bezierPoint (p0 p1 p2 p3 : ℚ × ℚ) (t : ℚ) : ℚ × ℚ :=
  ((1 - t) ^ 3 * p0.1 + 3 * (1 - t) ^ 2 * t * p1.1
      + 3 * (1 - t) * t ^ 2 * p2.1 + t ^ 3 * p3.1,
   (1 - t) ^ 3 * p0.2 + 3 * (1 - t) ^ 2 * t * p1.2
      + 3 * (1 - t) * t ^ 2 * p2.2 + t ^ 3 * p3.2)

/-- Whether a token is a numeric literal. -/
def Token.isNum : Token → Bool
  | Token.num _ => true
  | Token.cmd _ => false

/-- Operand count a command letter consumes in the parse loop (source lines
35-118): 2 for M/L, 1 for H/V, 6 for C, 0 for Z and for letters outside the
command class (which are skipped). -/
def opCount (ch : Char) : ℕ :=
  if ch = 'M' ∨ ch = 'm' ∨ ch = 'L' ∨ ch = 'l' then 2
  else if ch = 'H' ∨ ch = 'h' ∨ ch = 'V' ∨ ch = 'v' then 1
  else if ch = 'C' ∨ ch = 'c' then 6
  else 0

/-- Failure predicate on a token stream: some command letter is followed by
fewer numeric tokens than the operand count it consumes.  This is the exact
condition under which the parse loop raises. -/
def hasBadCmd : List Token → Bool
  | [] => false
  | Token.num _ :: rest => hasBadCmd rest
  | Token.cmd ch :: rest =>
    if (rest.takeWhile Token.isNum).length < opCount ch then true
    else hasBadCmd rest

/-! Concrete inputs used by the claims. -/

/-- The absolute-command unit-square path of the specification (§8). -/
def squareAbs : List Char := (r"M0,0 L10,0 L10,10 L0,10 Z").data

/-- The relative-command unit-square path of the specification (§8). -/
def squareRel : List Char := (r"M0,0 l10,0 l0,10 l-10,0 Z").data

/-- A path whose numeric tokens precede any command letter. -/
def leadingNums : List Char := (r"7 8 M0,0 L1,0 L1,1").data

/-- An input containing no recognized command letter. -/
def noCmdInput : List Char := (r"xy 12 34").data

/-- A well-formed path that parses to only two points. -/
def twoPointPath : List Char := (r"M0,0 L5,0").data

/-- The 4-point square polygon of the specification (§8). -/
def sq4 : List (ℚ × ℚ) := [(0, 0), (4, 0), (4, 4), (0, 4)]

set_option maxHeartbeats 2000000 in
/-- Claim C6: parsing `M0,0 L10,0 L10,10 L0,10 Z` yields exactly the polyline
`[(0,0), (10,0), (10,10), (0,10), (0,0)]`; the Close command appends the
subpath start because the current point `(0,10)` differs from it. -/
theorem parse_square_absolute :
    parse_svg_path_robust squareAbs =
      some [(0, 0), (10, 0), (10, 10), (0, 10), (0, 0)] := by
  with_unfolding_all rfl

set_option maxHeartbeats 2000000 in
/-- Claim C7: the relative-command square `M0,0 l10,0 l0,10 l-10,0 Z` parses
to the same polyline as the absolute-command square. -/
theorem parse_square_relative_eq_absolute :
    parse_svg_path_robust squareRel = parse_svg_path_robust squareAbs := by
  with_unfolding_all rfl

set_option maxHeartbeats 2000000 in
/-- Counterexample to claim C2 as stated: on `7 8 M0,0 L1,0 L1,1` the numeric
tokens `7 8` appear before any command letter, yet the parser does not fail:
it silently skips them and returns the polyline of the remaining commands. -/
theorem parse_leading_numbers_no_error :
    parse_svg_path_robust leadingNums = some [(0, 0), (1, 0), (1, 1)] := by
  with_unfolding_all rfl

/-- The fan triangulation produces one triangle per interior index:
`points.length - 2` of them (0 when fewer than 3 points, by ℕ truncation). -/
theorem triangulate_length (pts : List (ℚ × ℚ)) :
    (triangulate_polygon_earclip pts).length = pts.length - 2 := by
  unfold triangulate_polygon_earclip
  split
  · simp only [List.length_nil]
    omega
  · simp [List.length_range']

/-- Claim C3: on fewer than 3 points the triangulator returns the empty list;
on `n ≥ 3` points it returns exactly the fan triangles `(0, i, i+1)` for
`i = 1 .. n-2`, in that order. -/
theorem triangulate_fan_spec (pts : List (ℚ × ℚ)) :
    (pts.length < 3 → triangulate_polygon_earclip pts = []) ∧
    (3 ≤ pts.length → triangulate_polygon_earclip pts =
      (List.range (pts.length - 2)).map (fun i => (0, i + 1, i + 2))) := by
  constructor
  · intro h
    simp [triangulate_polygon_earclip, h]
  · intro h
    rw [triangulate_polygon_earclip, if_neg (by omega), List.range'_eq_map_range,
      List.map_map]
    refine List.map_congr_left ?_
    intro a _
    simp [Prod.ext_iff]
    omega

/-- Claim C3 witness: on the 4-point square the triangulator returns exactly
the two fan triangles `(0,1,2)` and `(0,2,3)`. -/
theorem triangulate_fan_spec_witness :
    triangulate_polygon_earclip sq4 = [(0, 1, 2), (0, 2, 3)] := by
  have h := (triangulate_fan_spec sq4).2 (by decide)
  rw [h]
  decide

/-- Claim C10: the triangulator returns `max 0 (n-2)` triangles on `n` input
points, and every index in a returned triangle is below `n`, so each triple
validly addresses the input list. -/
theorem triangulate_count_and_bounds (pts : List (ℚ × ℚ)) :
    ((triangulate_polygon_earclip pts).length : ℤ) = max 0 ((pts.length : ℤ) - 2) ∧
    ∀ t ∈ triangulate_polygon_earclip pts,
      t.1 < pts.length ∧ t.2.1 < pts.length ∧ t.2.2 < pts.length := by
  constructor
  · rw [triangulate_length]
    omega
  · intro t ht
    unfold triangulate_polygon_earclip at ht
    split at ht
    · simp at ht
    · simp only [List.mem_map, List.mem_range'_1] at ht
      obtain ⟨i, hi, rfl⟩ := ht
      dsimp only
      refine ⟨by omega, by omega, by omega⟩

/-- Claim C10 witness: on the square, the count is `max 0 (4-2) = 2` and the
member triangle `(0,1,2)` is index-valid. -/
theorem triangulate_count_and_bounds_witness :
    ((triangulate_polygon_earclip sq4).length : ℤ) = max 0 ((sq4.length : ℤ) - 2) ∧
    ((0, 1, 2) : ℕ × ℕ × ℕ).1 < sq4.length ∧
    ((0, 1, 2) : ℕ × ℕ × ℕ).2.1 < sq4.length ∧
    ((0, 1, 2) : ℕ × ℕ × ℕ).2.2 < sq4.length :=
  ⟨(triangulate_count_and_bounds sq4).1,
   (triangulate_count_and_bounds sq4).2 (0, 1, 2) (by decide)⟩

/-- Claim C8: a path whose curve string parses to fewer than 3 points
contributes zero vertices and zero faces, and the conversion run continues
with the remaining paths on unchanged mesh buffers. -/
theorem short_path_skipped (d : List Char) (rest : List (List Char))
    (s dep : ℚ) (V : List (ℚ × ℚ × ℚ)) (F : List (ℕ × ℕ × ℕ))
    (pts : List (ℚ × ℚ)) (hp : parse_svg_path_robust d = some pts)
    (hlen : pts.length < 3) :
    svg_to_obj_core (d :: rest) s dep V F = svg_to_obj_core rest s dep V F := by
  simp only [svg_to_obj_core, hp, process_points, if_pos hlen]

set_option maxHeartbeats 1000000 in
/-- Claim C8 witness: the two-point path `M0,0 L5,0` is skipped and the run
on it alone equals the run on no paths at all. -/
theorem short_path_skipped_witness :
    parse_svg_path_robust twoPointPath = some [(0, 0), (5, 0)] ∧
    svg_to_obj_core [twoPointPath] 1 10 [] [] = svg_to_obj_core [] 1 10 [] [] := by
  have hp : parse_svg_path_robust twoPointPath = some [(0, 0), (5, 0)] := by
    with_unfolding_all rfl
  exact ⟨hp, short_path_skipped twoPointPath [] 1 10 [] [] _ hp (by decide)⟩

/-- Each boundary edge contributes exactly two wall faces. -/
theorem length_flatMap_pair {α β : Type} (l : List α) (f g : α → β) :
    (l.flatMap (fun a => [f a, g a])).length = 2 * l.length := by
  induction l with
  | nil => rfl
  | cons a l ih =>
    simp only [List.flatMap_cons, List.length_append, ih, List.length_cons,
      List.length_nil]
    omega

/-- Claim C1: for a polygon of `N ≥ 3` points and positive depth, the
extrusion step appends exactly `2N` vertices — the `N` scaled points at
`z = +depth/2` in input order, then the same `N` points at `z = -depth/2` —
and exactly `2(N-2) + 2N` faces (front cap, back cap, walls). -/
theorem extrude_block_spec (V : List (ℚ × ℚ × ℚ)) (F : List (ℕ × ℕ × ℕ))
    (pts : List (ℚ × ℚ)) (s d : ℚ) (h3 : 3 ≤ pts.length) (hd : 0 < d) :
    (process_points V F pts s d).1.take V.length = V ∧
    (process_points V F pts s d).1.length = V.length + 2 * pts.length ∧
    (process_points V F pts s d).2.length
      = F.length + (2 * (pts.length - 2) + 2 * pts.length) ∧
    ∀ j p, pts[j]? = some p →
      (process_points V F pts s d).1[V.length + j]? = some (p.1 * s, -p.2 * s, d / 2) ∧
      (process_points V F pts s d).1[V.length + pts.length + j]?
        = some (p.1 * s, -p.2 * s, -(d / 2)) := by
  have hne : ¬ pts.length < 3 := by omega
  refine ⟨?_, ?_, ?_, ?_⟩
  · simp only [process_points, if_neg hne, List.append_assoc]
    rw [List.take_left' rfl]
  · simp only [process_points, if_neg hne]
    simp only [List.length_append, List.length_map]
    omega
  · simp only [process_points, if_neg hne]
    simp only [List.length_append, List.length_map, length_flatMap_pair,
      triangulate_length, List.length_range]
    omega
  · intro j p hj
    have hjlt : j < pts.length := by
      by_contra hge
      rw [List.getElem?_eq_none (by omega)] at hj
      cases hj
    constructor
    · simp only [process_points, if_neg hne, List.append_assoc]
      rw [List.getElem?_append_right (by omega : V.length ≤ V.length + j)]
      rw [Nat.add_sub_cancel_left]
      rw [List.getElem?_append_left (by simp only [List.length_map]; exact hjlt)]
      simp [List.getElem?_map, hj]
    · simp only [process_points, if_neg hne, List.append_assoc]
      rw [List.getElem?_append_right (by omega : V.length ≤ V.length + pts.length + j)]
      have hidx : V.length + pts.length + j - V.length = pts.length + j := by omega
      rw [hidx]
      rw [List.getElem?_append_right (by simp only [List.length_map]; exact Nat.le_add_right pts.length j)]
      simp [List.getElem?_map, hj]

/-- Claim C1 witness: the 4-point square extruded with depth 2 contributes
8 vertices and 12 faces; the sampled front and back vertices sit at
`z = 2/2 = 1` and `z = -(2/2) = -1`. -/
theorem extrude_block_spec_witness :
    (process_points [] [] sq4 1 2).1.length
      = ([] : List (ℚ × ℚ × ℚ)).length + 2 * sq4.length ∧
    (process_points [] [] sq4 1 2).2.length
      = ([] : List (ℕ × ℕ × ℕ)).length + (2 * (sq4.length - 2) + 2 * sq4.length) ∧
    (process_points [] [] sq4 1 2).1[([] : List (ℚ × ℚ × ℚ)).length + 0]?
      = some ((0 : ℚ) * 1, -(0 : ℚ) * 1, 2 / 2) ∧
    (process_points [] [] sq4 1 2).1[([] : List (ℚ × ℚ × ℚ)).length + sq4.length + 0]?
      = some ((0 : ℚ) * 1, -(0 : ℚ) * 1, -(2 / 2)) ∧
    ((2 : ℚ) / 2 = 1 ∧ -((2 : ℚ) / 2) = -1) := by
  have h := extrude_block_spec [] [] sq4 1 2 (by decide) (by norm_num)
  have h0 := h.2.2.2 0 (0, 0) rfl
  exact ⟨h.2.1, h.2.2.1, h0.1, h0.2, by norm_num⟩

/-- The face buffer produced by one extrusion block, decomposed into the
front-cap, back-cap and wall segments it appends after the old faces. -/
theorem process_points_faces (V : List (ℚ × ℚ × ℚ)) (F : List (ℕ × ℕ × ℕ))
    (pts : List (ℚ × ℚ)) (s d : ℚ) (h3 : 3 ≤ pts.length) :
    (process_points V F pts s d).2
      = F ++ ((triangulate_polygon_earclip (pts.map fun p => (p.1 * s, -p.2 * s))).map
            (fun t => (V.length + t.1 + 1, V.length + t.2.1 + 1, V.length + t.2.2 + 1))
          ++ ((triangulate_polygon_earclip (pts.map fun p => (p.1 * s, -p.2 * s))).map
              (fun t => (V.length + pts.length + t.1 + 1,
                V.length + pts.length + t.2.2 + 1, V.length + pts.length + t.2.1 + 1))
            ++ (List.range pts.length).flatMap (fun i =>
              [(V.length + i + 1, V.length + pts.length + i + 1,
                V.length + pts.length + (i + 1) % pts.length + 1),
               (V.length + i + 1, V.length + pts.length + (i + 1) % pts.length + 1,
                V.length + (i + 1) % pts.length + 1)]))) := by
  have hne : ¬ pts.length < 3 := by omega
  simp only [process_points, if_neg hne, List.append_assoc, List.length_append,
    List.length_map]

/-- Claim C5: within one extrusion block, the back-cap face list equals the
front-cap face list with the last two indices of each triangle swapped and
shifted from front-vertex offsets to back-vertex offsets (`+ N`). -/
theorem back_cap_swapped (V : List (ℚ × ℚ × ℚ)) (F : List (ℕ × ℕ × ℕ))
    (pts : List (ℚ × ℚ)) (s d : ℚ) (h3 : 3 ≤ pts.length) :
    ((process_points V F pts s d).2.drop (F.length + (pts.length - 2))).take
        (pts.length - 2)
      = (((process_points V F pts s d).2.drop F.length).take (pts.length - 2)).map
          (fun t => (t.1 + pts.length, t.2.2 + pts.length, t.2.1 + pts.length)) := by
  rw [process_points_faces V F pts s d h3]
  have hFF : ((triangulate_polygon_earclip (pts.map fun p => (p.1 * s, -p.2 * s))).map
      (fun t => (V.length + t.1 + 1, V.length + t.2.1 + 1, V.length + t.2.2 + 1))).length
      = pts.length - 2 := by
    simp [triangulate_length]
  have hBF : ((triangulate_polygon_earclip (pts.map fun p => (p.1 * s, -p.2 * s))).map
      (fun t => (V.length + pts.length + t.1 + 1, V.length + pts.length + t.2.2 + 1,
        V.length + pts.length + t.2.1 + 1))).length = pts.length - 2 := by
    simp [triangulate_length]
  rw [List.drop_append (pts.length - 2), ← Nat.add_zero F.length,
    List.drop_append 0, List.drop_zero, List.drop_left' hFF, List.take_left' hBF,
    List.take_left' hFF, List.map_map]
  refine List.map_congr_left ?_
  intro t ht
  simp only [Function.comp, Prod.ext_iff]
  omega

set_option maxHeartbeats 1000000 in
/-- Claim C5 witness: on the extruded square (depth 2, scale 1) the front cap
is `[(1,2,3), (1,3,4)]` and the back cap is `[(5,7,6), (5,8,7)]`: each back
triangle is its front partner with the last two indices swapped and shifted
by `N = 4` — the local pairing of `(0,1,2)` with `(0,2,1)`. -/
theorem back_cap_swapped_witness :
    ((process_points [] [] sq4 1 2).2.drop
        (([] : List (ℕ × ℕ × ℕ)).length + (sq4.length - 2))).take (sq4.length - 2)
      = ((((process_points [] [] sq4 1 2).2.drop
          (([] : List (ℕ × ℕ × ℕ)).length)).take (sq4.length - 2)).map
          (fun t => (t.1 + sq4.length, t.2.2 + sq4.length, t.2.1 + sq4.length))) ∧
    ((process_points [] [] sq4 1 2).2.drop 0).take 2 = [(1, 2, 3), (1, 3, 4)] ∧
    ((process_points [] [] sq4 1 2).2.drop 2).take 2 = [(5, 7, 6), (5, 8, 7)] := by
  refine ⟨back_cap_swapped [] [] sq4 1 2 (by decide), ?_, ?_⟩
  · with_unfolding_all rfl
  · with_unfolding_all rfl

/-- Definitional equation: no command in the empty stream. -/
theorem hasBadCmd_nil : hasBadCmd [] = false := rfl

/-- Definitional equation: a numeric token does not affect the failure
predicate. -/
theorem hasBadCmd_num (q : ℚ) (rest : List Token) :
    hasBadCmd (Token.num q :: rest) = hasBadCmd rest := rfl

/-- Definitional equation: a command letter fails when followed by fewer
numeric tokens than it consumes. -/
theorem hasBadCmd_cmd (ch : Char) (rest : List Token) :
    hasBadCmd (Token.cmd ch :: rest)
      = if (rest.takeWhile Token.isNum).length < opCount ch then true
        else hasBadCmd rest := rfl

/-- Classification of one iteration of the parse loop: either the stream is
empty and the accumulated points are returned; or at least one token is
consumed, the failure predicate is preserved, and the continuation takes
over; or the iteration fails — exactly when the head command letter has
fewer numeric tokens after it than its operand count. -/
theorem runStep_classify (ts : List Token) (st : PState) :
    (ts = [] ∧ ∀ recur, runStep recur ts st = some st.points) ∨
    (∃ rest2 st2, rest2.length < ts.length ∧ hasBadCmd ts = hasBadCmd rest2 ∧
      ∀ recur, runStep recur ts st = recur rest2 st2) ∨
    ((∀ recur, runStep recur ts st = none) ∧ hasBadCmd ts = true) := by
  rcases ts with _ | ⟨t, rest⟩
  · exact Or.inl ⟨rfl, fun recur => rfl⟩
  rcases t with ch | q
  · by_cases h1 : ch = 'M' ∨ ch = 'm'
    · have hop : opCount ch = 2 := by rcases h1 with h | h <;> simp [opCount, h]
      rcases rest with _ | ⟨ch1 | q1, rest1⟩
      · refine Or.inr (Or.inr ⟨fun recur => ?_, ?_⟩)
        · simp only [runStep]
          rw [if_pos h1]
        · rw [hasBadCmd_cmd, hop]
          simp
      · refine Or.inr (Or.inr ⟨fun recur => ?_, ?_⟩)
        · simp only [runStep]
          rw [if_pos h1]
        · rw [hasBadCmd_cmd, hop]
          simp [Token.isNum]
      · rcases rest1 with _ | ⟨ch2 | q2, rest2⟩
        · refine Or.inr (Or.inr ⟨fun recur => ?_, ?_⟩)
          · simp only [runStep]
            rw [if_pos h1]
          · rw [hasBadCmd_cmd, hop]
            simp [Token.isNum]
        · refine Or.inr (Or.inr ⟨fun recur => ?_, ?_⟩)
          · simp only [runStep]
            rw [if_pos h1]
          · rw [hasBadCmd_cmd, hop]
            simp [Token.isNum]
        · refine Or.inr (Or.inl ⟨rest2,
            ⟨st.points ++ [(if ch = 'M' then q1 else st.cx + q1,
              if ch = 'M' then q2 else st.cy + q2)],
              if ch = 'M' then q1 else st.cx + q1, if ch = 'M' then q2 else st.cy + q2,
              if ch = 'M' then q1 else st.cx + q1, if ch = 'M' then q2 else st.cy + q2⟩,
            by simp only [List.length_cons]; omega, ?_,
            fun recur => by simp only [runStep]; rw [if_pos h1]⟩)
          rw [hasBadCmd_cmd, hop, if_neg (by simp [Token.isNum]),
            hasBadCmd_num, hasBadCmd_num]
    · by_cases h2 : ch = 'L' ∨ ch = 'l'
      · have hop : opCount ch = 2 := by rcases h2 with h | h <;> simp [opCount, h]
        rcases rest with _ | ⟨ch1 | q1, rest1⟩
        · refine Or.inr (Or.inr ⟨fun recur => ?_, ?_⟩)
          · simp only [runStep]
            rw [if_neg h1, if_pos h2]
          · rw [hasBadCmd_cmd, hop]
            simp
        · refine Or.inr (Or.inr ⟨fun recur => ?_, ?_⟩)
          · simp only [runStep]
            rw [if_neg h1, if_pos h2]
          · rw [hasBadCmd_cmd, hop]
            simp [Token.isNum]
        · rcases rest1 with _ | ⟨ch2 | q2, rest2⟩
          · refine Or.inr (Or.inr ⟨fun recur => ?_, ?_⟩)
            · simp only [runStep]
              rw [if_neg h1, if_pos h2]
            · rw [hasBadCmd_cmd, hop]
              simp [Token.isNum]
          · refine Or.inr (Or.inr ⟨fun recur => ?_, ?_⟩)
            · simp only [runStep]
              rw [if_neg h1, if_pos h2]
            · rw [hasBadCmd_cmd, hop]
              simp [Token.isNum]
          · refine Or.inr (Or.inl ⟨rest2,
              ⟨st.points ++ [(if ch = 'L' then q1 else st.cx + q1,
                if ch = 'L' then q2 else st.cy + q2)],
                if ch = 'L' then q1 else st.cx + q1, if ch = 'L' then q2 else st.cy + q2,
                st.sx, st.sy⟩,
              by simp only [List.length_cons]; omega, ?_,
              fun recur => by simp only [runStep]; rw [if_neg h1, if_pos h2]⟩)
            rw [hasBadCmd_cmd, hop, if_neg (by simp [Token.isNum]),
              hasBadCmd_num, hasBadCmd_num]
      · by_cases h3 : ch = 'H' ∨ ch = 'h'
        · have hop : opCount ch = 1 := by rcases h3 with h | h <;> simp [opCount, h]
          rcases rest with _ | ⟨ch1 | q1, rest1⟩
          · refine Or.inr (Or.inr ⟨fun recur => ?_, ?_⟩)
            · simp only [runStep]
              rw [if_neg h1, if_neg h2, if_pos h3]
            · rw [hasBadCmd_cmd, hop]
              simp
          · refine Or.inr (Or.inr ⟨fun recur => ?_, ?_⟩)
            · simp only [runStep]
              rw [if_neg h1, if_neg h2, if_pos h3]
            · rw [hasBadCmd_cmd, hop]
              simp [Token.isNum]
          · refine Or.inr (Or.inl ⟨rest1,
              ⟨st.points ++ [(if ch = 'H' then q1 else st.cx + q1, st.cy)],
                if ch = 'H' then q1 else st.cx + q1, st.cy, st.sx, st.sy⟩,
              by simp only [List.length_cons]; omega, ?_,
              fun recur => by simp only [runStep]; rw [if_neg h1, if_neg h2, if_pos h3]⟩)
            rw [hasBadCmd_cmd, hop, if_neg (by simp [Token.isNum]), hasBadCmd_num]
        · by_cases h4 : ch = 'V' ∨ ch = 'v'
          · have hop : opCount ch = 1 := by rcases h4 with h | h <;> simp [opCount, h]
            rcases rest with _ | ⟨ch1 | q1, rest1⟩
            · refine Or.inr (Or.inr ⟨fun recur => ?_, ?_⟩)
              · simp only [runStep]
                rw [if_neg h1, if_neg h2, if_neg h3, if_pos h4]
              · rw [hasBadCmd_cmd, hop]
                simp
            · refine Or.inr (Or.inr ⟨fun recur => ?_, ?_⟩)
              · simp only [runStep]
                rw [if_neg h1, if_neg h2, if_neg h3, if_pos h4]
              · rw [hasBadCmd_cmd, hop]
                simp [Token.isNum]
            · refine Or.inr (Or.inl ⟨rest1,
                ⟨st.points ++ [(st.cx, if ch = 'V' then q1 else st.cy + q1)],
                  st.cx, if ch = 'V' then q1 else st.cy + q1, st.sx, st.sy⟩,
                by simp only [List.length_cons]; omega, ?_,
                fun recur => by
                  simp only [runStep]
                  rw [if_neg h1, if_neg h2, if_neg h3, if_pos h4]⟩)
              rw [hasBadCmd_cmd, hop, if_neg (by simp [Token.isNum]), hasBadCmd_num]
          · by_cases h5 : ch = 'C' ∨ ch = 'c'
            · have hop : opCount ch = 6 := by rcases h5 with h | h <;> simp [opCount, h]
              rcases rest with _ | ⟨ch1 | q1, rest1⟩
              · refine Or.inr (Or.inr ⟨fun recur => ?_, ?_⟩)
                · simp only [runStep]
                  rw [if_neg h1, if_neg h2, if_neg h3, if_neg h4, if_pos h5]
                · rw [hasBadCmd_cmd, hop]
                  simp
              · refine Or.inr (Or.inr ⟨fun recur => ?_, ?_⟩)
                · simp only [runStep]
                  rw [if_neg h1, if_neg h2, if_neg h3, if_neg h4, if_pos h5]
                · rw [hasBadCmd_cmd, hop]
                  simp [Token.isNum]
              · rcases rest1 with _ | ⟨ch2 | q2, rest2⟩
                · refine Or.inr (Or.inr ⟨fun recur => ?_, ?_⟩)
                  · simp only [runStep]
                    rw [if_neg h1, if_neg h2, if_neg h3, if_neg h4, if_pos h5]
                  · rw [hasBadCmd_cmd, hop]
                    simp [Token.isNum]
                · refine Or.inr (Or.inr ⟨fun recur => ?_, ?_⟩)
                  · simp only [runStep]
                    rw [if_neg h1, if_neg h2, if_neg h3, if_neg h4, if_pos h5]
                  · rw [hasBadCmd_cmd, hop]
                    simp [Token.isNum]
                · rcases rest2 with _ | ⟨ch3 | q3, rest3⟩
                  · refine Or.inr (Or.inr ⟨fun recur => ?_, ?_⟩)
                    · simp only [runStep]
                      rw [if_neg h1, if_neg h2, if_neg h3, if_neg h4, if_pos h5]
                    · rw [hasBadCmd_cmd, hop]
                      simp [Token.isNum]
                  · refine Or.inr (Or.inr ⟨fun recur => ?_, ?_⟩)
                    · simp only [runStep]
                      rw [if_neg h1, if_neg h2, if_neg h3, if_neg h4, if_pos h5]
                    · rw [hasBadCmd_cmd, hop]
                      simp [Token.isNum]
                  · rcases rest3 with _ | ⟨ch4 | q4, rest4⟩
                    · refine Or.inr (Or.inr ⟨fun recur => ?_, ?_⟩)
                      · simp only [runStep]
                        rw [if_neg h1, if_neg h2, if_neg h3, if_neg h4, if_pos h5]
                      · rw [hasBadCmd_cmd, hop]
                        simp [Token.isNum]
                    · refine Or.inr (Or.inr ⟨fun recur => ?_, ?_⟩)
                      · simp only [runStep]
                        rw [if_neg h1, if_neg h2, if_neg h3, if_neg h4, if_pos h5]
                      · rw [hasBadCmd_cmd, hop]
                        simp [Token.isNum]
                    · rcases rest4 with _ | ⟨ch5 | q5, rest5⟩
                      · refine Or.inr (Or.inr ⟨fun recur => ?_, ?_⟩)
                        · simp only [runStep]
                          rw [if_neg h1, if_neg h2, if_neg h3, if_neg h4, if_pos h5]
                        · rw [hasBadCmd_cmd, hop]
                          simp [Token.isNum]
                      · refine Or.inr (Or.inr ⟨fun recur => ?_, ?_⟩)
                        · simp only [runStep]
                          rw [if_neg h1, if_neg h2, if_neg h3, if_neg h4, if_pos h5]
                        · rw [hasBadCmd_cmd, hop]
                          simp [Token.isNum]
                      · rcases rest5 with _ | ⟨ch6 | q6, rest6⟩
                        · refine Or.inr (Or.inr ⟨fun recur => ?_, ?_⟩)
                          · simp only [runStep]
                            rw [if_neg h1, if_neg h2, if_neg h3, if_neg h4, if_pos h5]
                          · rw [hasBadCmd_cmd, hop]
                            simp [Token.isNum]
                        · refine Or.inr (Or.inr ⟨fun recur => ?_, ?_⟩)
                          · simp only [runStep]
                            rw [if_neg h1, if_neg h2, if_neg h3, if_neg h4, if_pos h5]
                          · rw [hasBadCmd_cmd, hop]
                            simp [Token.isNum]
                        · refine Or.inr (Or.inl ⟨rest6,
                            ⟨st.points ++ (approximate_bezier (st.cx, st.cy)
                                (if ch = 'C' then q1 else st.cx + q1,
                                  if ch = 'C' then q2 else st.cy + q2)
                                (if ch = 'C' then q3 else st.cx + q3,
                                  if ch = 'C' then q4 else st.cy + q4)
                                (if ch = 'C' then q5 else st.cx + q5,
                                  if ch = 'C' then q6 else st.cy + q6) 5).tail,
                              if ch = 'C' then q5 else st.cx + q5,
                              if ch = 'C' then q6 else st.cy + q6, st.sx, st.sy⟩,
                            by simp only [List.length_cons]; omega, ?_,
                            fun recur => by
                              simp only [runStep]
                              rw [if_neg h1, if_neg h2, if_neg h3, if_neg h4, if_pos h5]⟩)
                          rw [hasBadCmd_cmd, hop, if_neg (by simp [Token.isNum]),
                            hasBadCmd_num, hasBadCmd_num, hasBadCmd_num,
                            hasBadCmd_num, hasBadCmd_num, hasBadCmd_num]
            · by_cases h6 : ch = 'Z' ∨ ch = 'z'
              · have hop : opCount ch = 0 := by
                  simp only [opCount]
                  rw [if_neg (by tauto), if_neg (by tauto), if_neg (by tauto)]
                refine Or.inr (Or.inl ⟨rest,
                  ⟨if (st.cx, st.cy) ≠ (st.sx, st.sy)
                    then st.points ++ [(st.sx, st.sy)] else st.points,
                    st.sx, st.sy, st.sx, st.sy⟩,
                  by simp only [List.length_cons]; omega, ?_,
                  fun recur => by
                    simp only [runStep]
                    rw [if_neg h1, if_neg h2, if_neg h3, if_neg h4, if_neg h5, if_pos h6]⟩)
                rw [hasBadCmd_cmd, hop, if_neg (Nat.not_lt_zero _)]
              · have hop : opCount ch = 0 := by
                  simp only [opCount]
                  rw [if_neg (by tauto), if_neg (by tauto), if_neg (by tauto)]
                refine Or.inr (Or.inl ⟨rest, st,
                  by simp only [List.length_cons]; omega, ?_,
                  fun recur => by
                    simp only [runStep]
                    rw [if_neg h1, if_neg h2, if_neg h3, if_neg h4, if_neg h5, if_neg h6]⟩)
                rw [hasBadCmd_cmd, hop, if_neg (Nat.not_lt_zero _)]
  · exact Or.inr (Or.inl ⟨rest, st,
      by simp only [List.length_cons]; omega, hasBadCmd_num q rest,
      fun recur => rfl⟩)

/-- Fuel above the token count is irrelevant: every iteration consumes at
least one token. -/
theorem runTokensF_irrel : ∀ (f1 f2 : ℕ) (ts : List Token) (st : PState),
    ts.length < f1 → ts.length < f2 →
    runTokensF f1 ts st = runTokensF f2 ts st := by
  intro f1
  induction f1 with
  | zero =>
    intro f2 ts st h1 _
    omega
  | succ f1 ih =>
    intro f2 ts st h1 h2
    rcases f2 with _ | f2
    · omega
    have e1 : runTokensF (f1 + 1) ts st = runStep (runTokensF f1) ts st := rfl
    have e2 : runTokensF (f2 + 1) ts st = runStep (runTokensF f2) ts st := rfl
    rcases runStep_classify ts st with ⟨rfl, hstep⟩ | ⟨rest2, st2, hlt, -, hstep⟩ |
      ⟨hstep, -⟩
    · rw [e1, e2, hstep, hstep]
    · rw [e1, e2, hstep, hstep]
      exact ih f2 rest2 st2 (by omega) (by omega)
    · rw [e1, e2, hstep, hstep]

/-- With sufficient fuel, the loop returns `none` exactly when some command
letter in the stream is short of numeric operands. -/
theorem runTokensF_none_iff : ∀ (fuel : ℕ) (ts : List Token) (st : PState),
    ts.length < fuel → (runTokensF fuel ts st = none ↔ hasBadCmd ts = true) := by
  intro fuel
  induction fuel with
  | zero =>
    intro ts st h
    omega
  | succ fuel ih =>
    intro ts st hlen
    have e1 : runTokensF (fuel + 1) ts st = runStep (runTokensF fuel) ts st := rfl
    rcases runStep_classify ts st with ⟨rfl, hstep⟩ | ⟨rest2, st2, hlt, hbad, hstep⟩ |
      ⟨hstep, hbad⟩
    · rw [e1, hstep, hasBadCmd_nil]
      simp
    · rw [e1, hstep, hbad]
      exact ih rest2 st2 (by omega)
    · rw [e1, hstep, hbad]
      simp

/-- The parse loop fails exactly on streams with an operand-starved command
letter, from any starting state. -/
theorem runTokens_none_iff (ts : List Token) (st : PState) :
    runTokens ts st = none ↔ hasBadCmd ts = true :=
  runTokensF_none_iff (ts.length + 1) ts st (by omega)

/-- Claim C2 (amended): the parser fails exactly when some command letter in
the token stream is followed by fewer numeric tokens than its operand count
(2 for M/L, 1 for H/V, 6 for C, 0 for Z); numeric tokens standing before any
command letter never cause a failure — they are silently skipped — and in all
other cases a polyline is returned. -/
theorem parse_none_iff_insufficient_operands (s : List Char) :
    parse_svg_path_robust s = none ↔ hasBadCmd (tokenize s) = true :=
  runTokens_none_iff (tokenize s) ⟨[], 0, 0, 0, 0⟩

/-- Sampling the Bezier approximation list at index `i` gives the
specification formula at `t = i / segments`. -/
theorem approximate_bezier_getElem (p0 p1 p2 p3 : ℚ × ℚ) (seg i : ℕ)
    (hi : i < seg + 1) :
    (approximate_bezier p0 p1 p2 p3 seg)[i]?
      = some (bezierPoint p0 p1 p2 p3 ((i : ℚ) / (seg : ℚ))) := by
  unfold approximate_bezier
  rw [List.getElem?_map, List.getElem?_range hi]
  rfl

/-- The Bezier formula at `t = 0` reproduces the start point exactly. -/
theorem bezierPoint_zero (p0 p1 p2 p3 : ℚ × ℚ) : bezierPoint p0 p1 p2 p3 0 = p0 := by
  unfold bezierPoint
  norm_num

/-- The Bezier formula at `t = 1` reproduces the endpoint exactly. -/
theorem bezierPoint_one (p0 p1 p2 p3 : ℚ × ℚ) : bezierPoint p0 p1 p2 p3 1 = p3 := by
  unfold bezierPoint
  norm_num

/-- Claim C4: a cubic command samples the Bezier formula at
`t = 0, 1/5, 2/5, 3/5, 4/5, 1` (6 samples, 5 segments); the `t = 0` sample is
the current point and the `t = 1` sample is the endpoint, exactly; the parse
loop appends the 5 samples after the first and moves the current point to the
endpoint — for `C` with the operands as given, for `c` with the control points
and endpoint made absolute by adding the current point. -/
theorem cubic_flatten_spec (st : PState) (x1 y1 x2 y2 x y : ℚ) (rest : List Token) :
    (approximate_bezier (st.cx, st.cy) (x1, y1) (x2, y2) (x, y) 5).length = 6 ∧
    (∀ i : ℕ, i < 6 →
      (approximate_bezier (st.cx, st.cy) (x1, y1) (x2, y2) (x, y) 5)[i]? =
        some (bezierPoint (st.cx, st.cy) (x1, y1) (x2, y2) (x, y) ((i : ℚ) / 5))) ∧
    (approximate_bezier (st.cx, st.cy) (x1, y1) (x2, y2) (x, y) 5)[0]?
      = some (st.cx, st.cy) ∧
    (approximate_bezier (st.cx, st.cy) (x1, y1) (x2, y2) (x, y) 5)[5]?
      = some (x, y) ∧
    runTokens (Token.cmd 'C' :: Token.num x1 :: Token.num y1 :: Token.num x2 ::
        Token.num y2 :: Token.num x :: Token.num y :: rest) st =
      runTokens rest ⟨st.points ++
        (approximate_bezier (st.cx, st.cy) (x1, y1) (x2, y2) (x, y) 5).tail,
        x, y, st.sx, st.sy⟩ ∧
    runTokens (Token.cmd 'c' :: Token.num x1 :: Token.num y1 :: Token.num x2 ::
        Token.num y2 :: Token.num x :: Token.num y :: rest) st =
      runTokens rest ⟨st.points ++
        (approximate_bezier (st.cx, st.cy) (st.cx + x1, st.cy + y1)
          (st.cx + x2, st.cy + y2) (st.cx + x, st.cy + y) 5).tail,
        st.cx + x, st.cy + y, st.sx, st.sy⟩ := by
  refine ⟨?_, ?_, ?_, ?_, ?_, ?_⟩
  · simp only [approximate_bezier, List.length_map, List.length_range]
  · intro i hi
    simpa using approximate_bezier_getElem (st.cx, st.cy) (x1, y1) (x2, y2) (x, y) 5 i
      (by omega)
  · rw [approximate_bezier_getElem (st.cx, st.cy) (x1, y1) (x2, y2) (x, y) 5 0 (by omega)]
    norm_num [bezierPoint_zero]
  · rw [approximate_bezier_getElem (st.cx, st.cy) (x1, y1) (x2, y2) (x, y) 5 5 (by omega)]
    norm_num [bezierPoint_one]
  · have step : runTokens (Token.cmd 'C' :: Token.num x1 :: Token.num y1 :: Token.num x2 ::
        Token.num y2 :: Token.num x :: Token.num y :: rest) st
        = runTokensF (rest.length + 7) rest
            ⟨st.points ++
              (approximate_bezier (st.cx, st.cy) (x1, y1) (x2, y2) (x, y) 5).tail,
              x, y, st.sx, st.sy⟩ := rfl
    rw [step]
    exact runTokensF_irrel _ _ rest _ (by omega) (by omega)
  · have step : runTokens (Token.cmd 'c' :: Token.num x1 :: Token.num y1 :: Token.num x2 ::
        Token.num y2 :: Token.num x :: Token.num y :: rest) st
        = runTokensF (rest.length + 7) rest
            ⟨st.points ++
              (approximate_bezier (st.cx, st.cy) (st.cx + x1, st.cy + y1)
                (st.cx + x2, st.cy + y2) (st.cx + x, st.cy + y) 5).tail,
              st.cx + x, st.cy + y, st.sx, st.sy⟩ := rfl
    rw [step]
    exact runTokensF_irrel _ _ rest _ (by omega) (by omega)

/-- Claim C4 witness: the concrete cubic from `(0,0)` through controls
`(1,0)`, `(1,1)` to `(2,1)` has 6 samples, starts at `(0,0)`, ends at
`(2,1)`, and its sample at `i = 3` is the Bezier value at `t = 3/5`; the
parse step for `C` appends its tail. -/
theorem cubic_flatten_spec_witness :
    (approximate_bezier ((0 : ℚ), (0 : ℚ)) (1, 0) (1, 1) (2, 1) 5).length = 6 ∧
    (approximate_bezier ((0 : ℚ), (0 : ℚ)) (1, 0) (1, 1) (2, 1) 5)[3]?
      = some (bezierPoint ((0 : ℚ), (0 : ℚ)) (1, 0) (1, 1) (2, 1) ((3 : ℚ) / 5)) ∧
    (approximate_bezier ((0 : ℚ), (0 : ℚ)) (1, 0) (1, 1) (2, 1) 5)[0]?
      = some ((0 : ℚ), (0 : ℚ)) ∧
    (approximate_bezier ((0 : ℚ), (0 : ℚ)) (1, 0) (1, 1) (2, 1) 5)[5]?
      = some ((2 : ℚ), (1 : ℚ)) ∧
    runTokens [Token.cmd 'C', Token.num 1, Token.num 0, Token.num 1,
        Token.num 1, Token.num 2, Token.num 1] ⟨[], 0, 0, 0, 0⟩ =
      runTokens [] ⟨[] ++
        (approximate_bezier ((0 : ℚ), (0 : ℚ)) (1, 0) (1, 1) (2, 1) 5).tail,
        2, 1, 0, 0⟩ := by
  have h := cubic_flatten_spec ⟨[], 0, 0, 0, 0⟩ 1 0 1 1 2 1 []
  exact ⟨h.1, by simpa using h.2.1 3 (by omega), h.2.2.1, h.2.2.2.1, h.2.2.2.2.1⟩

/-! Consumption lemmas: every successful numeric match splits its input into
a nonempty consumed prefix and the returned rest.  They justify both that the
tokenizer's fuel never runs out and that tokens of a command-free string are
all numeric. -/

/-- A list whose `isEmpty` test is false is not nil. -/
theorem ne_nil_of_isEmpty_eq_false {α : Type} {l : List α}
    (h : ¬ l.isEmpty = true) : l ≠ [] := by
  rcases l with _ | ⟨a, l⟩
  · simp at h
  · simp

/-- The sign matcher consumes a (possibly empty) prefix. -/
theorem matchSign_consumes (l : List Char) : ∃ p, l = p ++ (matchSign l).2 := by
  rcases l with _ | ⟨c, r⟩
  · exact ⟨[], rfl⟩
  · simp only [matchSign]
    by_cases h1 : c = '-'
    · rw [if_pos h1]
      exact ⟨[c], rfl⟩
    · rw [if_neg h1]
      by_cases h2 : c = '+'
      · rw [if_pos h2]
        exact ⟨[c], rfl⟩
      · rw [if_neg h2]
        exact ⟨[], rfl⟩

/-- The exponent matcher consumes a (possibly empty) prefix. -/
theorem matchExp_consumes (l : List Char) : ∃ p, l = p ++ (matchExp l).2 := by
  rcases l with _ | ⟨c, r⟩
  · exact ⟨[], rfl⟩
  · simp only [matchExp]
    by_cases hce : c = 'e' ∨ c = 'E'
    · rw [if_pos hce]
      by_cases hds : ((matchSign r).2.takeWhile Char.isDigit).isEmpty
      · rw [if_pos hds]
        exact ⟨[], rfl⟩
      · rw [if_neg hds]
        obtain ⟨p0, hp0⟩ := matchSign_consumes r
        have htd : (matchSign r).2.takeWhile Char.isDigit
            ++ (matchSign r).2.dropWhile Char.isDigit = (matchSign r).2 :=
          List.takeWhile_append_dropWhile Char.isDigit _
        refine ⟨c :: (p0 ++ (matchSign r).2.takeWhile Char.isDigit), ?_⟩
        conv_lhs => rw [hp0, ← htd]
        simp [List.append_assoc]
    · rw [if_neg hce]
      exact ⟨[], rfl⟩

/-- A successful mantissa match consumes a nonempty prefix. -/
theorem matchMantissa_consumes {l r : List Char} {m : ℚ}
    (h : matchMantissa l = some (m, r)) : ∃ p, p ≠ [] ∧ l = p ++ r := by
  have hsplit : l.takeWhile Char.isDigit ++ l.dropWhile Char.isDigit = l :=
    List.takeWhile_append_dropWhile Char.isDigit _
  simp only [matchMantissa] at h
  rcases hdw : l.dropWhile Char.isDigit with _ | ⟨c, l3⟩
  · rw [hdw] at h hsplit
    simp only [] at h
    split at h
    · cases h
    · obtain ⟨rfl, rfl⟩ : _ ∧ ([] : List Char) = r := by
        simpa [Prod.ext_iff] using h
      refine ⟨l.takeWhile Char.isDigit, ?_, by simpa using hsplit.symm⟩
      exact ne_nil_of_isEmpty_eq_false (by assumption)
  · rw [hdw] at h hsplit
    simp only [] at h
    by_cases hc : c = '.'
    · rw [if_pos hc] at h
      split at h
      · split at h
        · cases h
        · obtain ⟨rfl, rfl⟩ : _ ∧ c :: l3 = r := by
            simpa [Prod.ext_iff] using h
          refine ⟨l.takeWhile Char.isDigit, ?_, hsplit.symm⟩
          exact ne_nil_of_isEmpty_eq_false (by assumption)
      · obtain ⟨rfl, rfl⟩ : _ ∧ l3.dropWhile Char.isDigit = r := by
          simpa [Prod.ext_iff] using h
        have htd3 : l3.takeWhile Char.isDigit ++ l3.dropWhile Char.isDigit = l3 :=
          List.takeWhile_append_dropWhile Char.isDigit l3
        refine ⟨l.takeWhile Char.isDigit ++ c :: l3.takeWhile Char.isDigit, by simp, ?_⟩
        conv_lhs => rw [← hsplit, ← htd3]
        simp [List.append_assoc]
    · rw [if_neg hc] at h
      split at h
      · cases h
      · obtain ⟨rfl, rfl⟩ : _ ∧ c :: l3 = r := by
          simpa [Prod.ext_iff] using h
        refine ⟨l.takeWhile Char.isDigit, ?_, hsplit.symm⟩
        exact ne_nil_of_isEmpty_eq_false (by assumption)

/-- A successful numeric-token match consumes a nonempty prefix. -/
theorem matchNum_consumes {l r : List Char} {q : ℚ}
    (h : matchNum l = some (q, r)) : ∃ p, p ≠ [] ∧ l = p ++ r := by
  simp only [matchNum] at h
  rcases hmm : matchMantissa (matchSign l).2 with _ | ⟨m, l2⟩
  · rw [hmm] at h
    cases h
  · rw [hmm] at h
    obtain ⟨-, hr⟩ : _ ∧ (matchExp l2).2 = r := by
      simpa [Prod.ext_iff] using h
    obtain ⟨p0, hp0⟩ := matchSign_consumes l
    obtain ⟨p1, hp1ne, hp1⟩ := matchMantissa_consumes hmm
    obtain ⟨p2, hp2⟩ := matchExp_consumes l2
    refine ⟨p0 ++ p1 ++ p2, by simp [hp1ne], ?_⟩
    calc l = p0 ++ (matchSign l).2 := hp0
      _ = p0 ++ (p1 ++ l2) := by rw [hp1]
      _ = p0 ++ (p1 ++ (p2 ++ (matchExp l2).2)) := by rw [← hp2]
      _ = p0 ++ p1 ++ p2 ++ r := by rw [hr]; simp [List.append_assoc]

/-- Tokenizer fuel above the input length is irrelevant: every scan step
consumes at least one character, so the `l.length` fuel used by `tokenize`
computes the full `re.findall` result. -/
theorem tokenizeF_irrel : ∀ (f1 f2 : ℕ) (l : List Char), l.length ≤ f1 →
    l.length ≤ f2 → tokenizeF f1 l = tokenizeF f2 l := by
  intro f1
  induction f1 with
  | zero =>
    intro f2 l h1 _
    have : l = [] := List.eq_nil_of_length_eq_zero (by omega)
    subst this
    rcases f2 with _ | f2 <;> rfl
  | succ f1 ih =>
    intro f2 l h1 h2
    rcases l with _ | ⟨ch, rest⟩
    · rcases f2 with _ | f2 <;> rfl
    rcases f2 with _ | f2
    · simp at h2
    simp only [tokenizeF]
    by_cases hch : isCmdChar ch
    · rw [if_pos hch, if_pos hch,
        ih f2 rest (by simp at h1; omega) (by simp at h2; omega)]
    · rw [if_neg hch, if_neg hch]
      rcases hmn : matchNum (ch :: rest) with _ | ⟨q, rest2⟩
      · exact ih f2 rest (by simp at h1; omega) (by simp at h2; omega)
      · obtain ⟨p, hpne, hp⟩ := matchNum_consumes hmn
        have hlen : rest2.length + 1 ≤ rest.length + 1 := by
          have := congrArg List.length hp
          simp [List.length_append] at this
          rcases p with _ | ⟨a, p⟩
          · cases hpne rfl
          · simp at this
            omega
        show Token.num q :: tokenizeF f1 rest2 = Token.num q :: tokenizeF f2 rest2
        rw [ih f2 rest2 (by simp at h1; omega) (by simp at h2; omega)]

/-- On input containing no command letter, every token the scan produces is
numeric. -/
theorem tokenizeF_num_of_no_cmd : ∀ (fuel : ℕ) (l : List Char),
    (∀ c ∈ l, isCmdChar c = false) →
    ∀ t ∈ tokenizeF fuel l, ∃ q, t = Token.num q := by
  intro fuel
  induction fuel with
  | zero =>
    intro l _ t ht
    simp [tokenizeF] at ht
  | succ fuel ih =>
    intro l hl t ht
    rcases l with _ | ⟨ch, rest⟩
    · simp [tokenizeF] at ht
    · have hch : isCmdChar ch = false := hl ch (List.mem_cons_self ch rest)
      simp only [tokenizeF, hch, Bool.false_eq_true, if_false] at ht
      split at ht
      · rename_i q2 rest2 hmn
        rcases List.mem_cons.1 ht with rfl | ht2
        · exact ⟨q2, rfl⟩
        · obtain ⟨p, _, hp⟩ := matchNum_consumes hmn
          refine ih rest2 (fun c hc => hl c ?_) t ht2
          rw [hp]
          exact List.mem_append_right _ hc
      · exact ih rest (fun c hc => hl c (List.mem_cons_of_mem _ hc)) t ht

/-- The command loop over a stream of only numeric tokens skips them all and
returns the accumulated points unchanged. -/
theorem runTokens_all_num : ∀ (ts : List Token) (st : PState),
    (∀ t ∈ ts, ∃ q, t = Token.num q) → runTokens ts st = some st.points := by
  intro ts
  induction ts with
  | nil =>
    intro st _
    rfl
  | cons t rest ih =>
    intro st hall
    obtain ⟨q, rfl⟩ := hall t (List.mem_cons_self t rest)
    exact ih st (fun t2 ht2 => hall t2 (List.mem_cons_of_mem _ ht2))

/-- Claim C9: on any input string containing no recognized command letter
(including the empty string), the parser returns the empty polyline without
raising: all tokens are numeric and are silently skipped. -/
theorem parse_no_commands_empty (s : List Char)
    (h : ∀ c ∈ s, isCmdChar c = false) :
    parse_svg_path_robust s = some [] := by
  unfold parse_svg_path_robust tokenize
  exact runTokens_all_num _ _ (tokenizeF_num_of_no_cmd s.length s h)

/-- Claim C9 witness: `xy 12 34` contains no command letter and parses to the
empty polyline. -/
theorem parse_no_commands_empty_witness :
    parse_svg_path_robust noCmdInput = some [] :=
  parse_no_commands_empty noCmdInput (by decide)

end SvgToObj
